import Mathlib

/-!
# SizedArray (FiniteDifference/VecArray.h)

A shallow embedding of the `SizedArray<T>` struct of `VecArray.h` and of its
member functions, followed by the properties proved about them.

Modelling conventions.

* `Py_ssize_t` values (`ndim`, `size`, the `shape` slots, the arguments of
  `reshape`) are mathematical integers.  Signed overflow of `Py_ssize_t`
  arithmetic is undefined behaviour in C++; the embedding describes the
  executions in which it does not occur.
* `int` values are integers too, but the one place where a `Py_ssize_t`
  expression is stored into an `int` (`int idx = i * shape[1] + j`) is a
  defined narrowing conversion, and it is modelled explicitly by `toCInt`
  (reduction modulo 2^32 into the range [-2^31, 2^31)).
* A device pointer is `Option (Nat → T)`: `none` is the null pointer, and
  `some cells` points at memory whose cell at offset `k` is `cells k`.
* `DIE(...)` (macro of `common.h`) is fatal: the function returns
  `Except.error` with the constructor of `Fatal` naming the `DIE` site.
* Memory that the source leaves uninitialised (the unused `shape` slots, a
  block fresh from `device_malloc`) is a parameter of the function that
  creates it.
* The element type `T` is arbitrary; `plus` and `times` ask for its `+` and `*`, and
  the properties of scalar arithmetic name the algebraic laws they rest on (an
  additive group for `plus`; `e*1 = e` and `e*0 = 0` for `times`).  Integers, taken
  exactly or modulo 2^w, have them; `Scalar` is an element type without `e*0 = 0`.
* Where two arrays and their buffers are compared (`ArrayAt`), device memory is a
  map from addresses to blocks and an array holds the address of its block; the
  member functions are those of `SizedArray`, applied to the block behind the
  address.
-/

namespace VecArray

/-- Fatal outcomes.  Every constructor but `nullAccess` is one `DIE` site of
`VecArray.h`; `nullAccess` stands for the fault of reading or writing through a
null pointer. -/
inductive Fatal where
  | notOwner
  | allocFailed
  | danglingData
  | ndimRange
  | zeroExtent (i : Nat)
  | sizeMismatch
  | unknownStrategy
  | linearRange
  | not2D
  | rowRange
  | colRange
  | flatRange
  | nullAccess
  deriving DecidableEq, Repr

/-- The fields of `struct SizedArray<T>`; `shape` has eight slots in the source,
indexed here by `Nat`. -/
structure SizedArray (T : Type) where
  owner : Bool
  data : Option (Nat → T)
  ndim : Int
  size : Int
  shape : Nat → Int
  name : String

/-- Conversion of a `Py_ssize_t` value to `int`: the value modulo 2^32, taken in
[-2^31, 2^31). -/
def toCInt (x : Int) : Int :=
  (x + 2147483648) % 4294967296 - 2147483648

/-- The effect of `thrust::copy(src, src + n, dst)` on the cells of `dst`. -/
def copyCells {T : Type} (src : Nat → T) (n : Int) (dst : Nat → T) : Nat → T :=
  fun k => if (k : Int) < n then src k else dst k

/-- The call `thrust::copy(src, src + n, dst)` on pointers: nothing happens for an
empty range, and a null end point of a non-empty range faults. -/
def thrust_copy {T : Type} (src : Option (Nat → T)) (n : Int) (dst : Option (Nat → T)) :
    Except Fatal (Option (Nat → T)) :=
  if n ≤ 0 then .ok dst
  else
    match src, dst with
    | some s, some d => .ok (some (copyCells s n d))
    | _, _ => .error .nullAccess

/-- The call `thrust::transform(p, p + n, make_constant_iterator(x), p, op)`: every
cell `e` of the range becomes `op e x`; nothing happens for an empty range, and a
null pointer with a non-empty range faults. -/
def thrust_transform {T : Type} (op : T → T → T) (p : Option (Nat → T)) (n : Int) (x : T) :
    Except Fatal (Option (Nat → T)) :=
  if n ≤ 0 then .ok p
  else
    match p with
    | some cells => .ok (some (fun k => if (k : Int) < n then op (cells k) x else cells k))
    | none => .error .nullAccess

/-- Modelled from the spec: the kernel `transposeNoBankConflicts` of `_kernels.h`, which
is not part of the sources at hand.  Its contract is
`transpose(dst, src, rows, cols)` with `dst[c*rows + r] = src[r*cols + c]` for
every row `r < rows` and column `c < cols`; the other cells of `dst` are left as
they are. -/
def transposeNoBankConflicts {T : Type} (dst src : Nat → T) (rows cols : Int) : Nat → T :=
  fun k =>
    if k < rows.toNat * cols.toNat then
      src ((k % rows.toNat) * cols.toNat + k / rows.toNat)
    else dst k

namespace SizedArray

variable {T : Type}

/-- The member `sanity_check()`. -/
def sanity_check (a : SizedArray T) : Except Fatal Unit :=
  if !a.owner then .error .notOwner
  else if a.data.isNone then
    (if a.owner then .error .allocFailed else .error .danglingData)
  else if a.ndim > 8 then .error .ndimRange
  else
    match (List.range a.ndim.toNat).find? (fun i => a.shape i == 0) with
    | some i => .error (.zeroExtent i)
    | none => .ok ()

/-- The array `a` once `sanity_check()` has returned. -/
def checked (a : SizedArray T) : Except Fatal (SizedArray T) :=
  match a.sanity_check with
  | .ok _ => .ok a
  | .error e => .error e

/-- The constructor `SizedArray(Py_ssize_t size, std::string name)`.  `mem` is what
`device_malloc<T>(size)` returned and `slots` the uninitialised `shape`. -/
def construct (mem : Option (Nat → T)) (slots : Nat → Int) (size : Int) (name : String) :
    Except Fatal (SizedArray T) :=
  checked
    { owner := true, data := mem, ndim := 1, size := size,
      shape := Function.update slots 0 size, name := name }

/-- The loop `for (i = 0; i < ndim; ++i) shape[i] = S.shape[i];` of the copy
constructor. -/
def copyShape (from_shape : Nat → Int) (ndim : Int) (slots : Nat → Int) : Nat → Int :=
  (List.range ndim.toNat).foldl (fun sh i => Function.update sh i (from_shape i)) slots

/-- The constructor `SizedArray(SizedArray<T> const &S, bool deep)`.  `mem` is what
`device_malloc<T>(S.size)` returns when it is called. -/
def constructCopy (mem : Option (Nat → T)) (slots : Nat → Int) (S : SizedArray T)
    (deep : Bool) : Except Fatal (SizedArray T) :=
  let owner := deep
  let data0 := if owner then mem else S.data
  match (if owner then thrust_copy S.data S.size data0 else .ok data0) with
  | .error e => .error e
  | .ok data1 =>
    checked
      { owner := owner, data := data1, ndim := S.ndim, size := S.size,
        shape := copyShape S.shape S.ndim slots, name := S.name }

/-- The constructor `SizedArray(T *rawptr, Py_ssize_t size, std::string name, bool from_host)`. -/
def constructRaw (mem : Option (Nat → T)) (slots : Nat → Int) (rawptr : Option (Nat → T))
    (size : Int) (name : String) (from_host : Bool) : Except Fatal (SizedArray T) :=
  let owner := from_host
  match (if owner then thrust_copy rawptr size mem else .ok rawptr) with
  | .error e => .error e
  | .ok data1 =>
    checked
      { owner := owner, data := data1, ndim := 1, size := size,
        shape := Function.update slots 0 size, name := name }

/-- The loop `for (i = 0; i < ndim; ++i) { shape[i] = s[i]; size *= shape[i]; }` of
the N-D constructor, started from `size = 1`: the final `shape` and `size`. -/
def fillShape (s : Nat → Int) (ndim : Int) (slots : Nat → Int) : (Nat → Int) × Int :=
  (List.range ndim.toNat).foldl
    (fun st i =>
      let sh := Function.update st.1 i (s i)
      (sh, st.2 * sh i))
    (slots, 1)

/-- The constructor
`SizedArray(T *rawptr, int ndim, intptr_t *s, std::string name, bool from_host)`.
`mem` is what `device_malloc<T>(size)` returns when it is called. -/
def constructND (mem : Option (Nat → T)) (slots : Nat → Int) (rawptr : Option (Nat → T))
    (ndim : Int) (s : Nat → Int) (name : String) (from_host : Bool) :
    Except Fatal (SizedArray T) :=
  let owner := from_host
  let filled := fillShape s ndim slots
  match (if owner then thrust_copy rawptr filled.2 mem else .ok rawptr) with
  | .error e => .error e
  | .ok data1 =>
    checked
      { owner := owner, data := data1, ndim := ndim, size := filled.2,
        shape := filled.1, name := name }

/-- The member `reshape(h, w)`. -/
def reshape (a : SizedArray T) (h w : Int) : Except Fatal (SizedArray T) :=
  if h * w ≠ a.size then .error .sizeMismatch
  else .ok { a with shape := Function.update (Function.update a.shape 0 h) 1 w, ndim := 2 }

/-- The member `flatten()`. -/
def flatten (a : SizedArray T) : SizedArray T :=
  { a with shape := Function.update (Function.update a.shape 0 a.size) 1 0, ndim := 1 }

/-- The member `transpose(strategy)`.  `out` is the scratch block handed back by
`device_malloc<T>(size)`. -/
def transpose (a : SizedArray T) (out : Nat → T) (strategy : Int) :
    Except Fatal (SizedArray T) :=
  if a.ndim ≠ 2 then .ok a
  else if strategy ≠ 1 then .error .unknownStrategy
  else
    match a.data with
    | none => .error .nullAccess
    | some src =>
      let out1 := transposeNoBankConflicts out src (a.shape 0) (a.shape 1)
      match a.reshape (a.shape 1) (a.shape 0) with
      | .error e => .error e
      | .ok b =>
        if b.owner then .ok { b with data := some out1 }
        else .ok { b with data := some (copyCells out1 b.size src) }

/-- The member `int idx(int idx)`. -/
def idx (a : SizedArray T) (i : Int) : Except Fatal Int :=
  if i < 0 ∨ a.size ≤ i then .error .linearRange
  else .ok i

/-- The member `int idx(int i, int j)`. -/
def idx2 (a : SizedArray T) (i j : Int) : Except Fatal Int :=
  if a.ndim ≠ 2 then .error .not2D
  else
    let k := toCInt (i * a.shape 1 + j)
    if i ≥ a.shape 0 then .error .rowRange
    else if j ≥ a.shape 1 then .error .colRange
    else if k < 0 ∨ a.size ≤ k then .error .flatRange
    else .ok k

/-- The read `data[k]`. -/
def cell (a : SizedArray T) (k : Int) : Except Fatal T :=
  match a.data with
  | none => .error .nullAccess
  | some cells => .ok (cells k.toNat)

/-- The write `data[k] = x`. -/
def setCell (a : SizedArray T) (k : Int) (x : T) : Except Fatal (SizedArray T) :=
  match a.data with
  | none => .error .nullAccess
  | some cells => .ok { a with data := some (Function.update cells k.toNat x) }

/-- The member `T get(int i)`. -/
def get (a : SizedArray T) (i : Int) : Except Fatal T :=
  match a.idx i with
  | .error e => .error e
  | .ok k => a.cell k

/-- The member `void set(int i, T x)`. -/
def set (a : SizedArray T) (i : Int) (x : T) : Except Fatal (SizedArray T) :=
  match a.idx i with
  | .error e => .error e
  | .ok k => a.setCell k x

/-- The member `T get(int i, int j)`. -/
def get2 (a : SizedArray T) (i j : Int) : Except Fatal T :=
  match a.idx2 i j with
  | .error e => .error e
  | .ok k => a.cell k

/-- The member `void set(int i, int j, T x)`. -/
def set2 (a : SizedArray T) (i j : Int) (x : T) : Except Fatal (SizedArray T) :=
  match a.idx2 i j with
  | .error e => .error e
  | .ok k => a.setCell k x

/-- The member `plus(T x)`; the reference it returns is the array itself. -/
def plus [Add T] (a : SizedArray T) (x : T) : Except Fatal (SizedArray T) :=
  match thrust_transform (fun e y => e + y) a.data a.size x with
  | .error e => .error e
  | .ok d => .ok { a with data := d }

/-- The member `times(T x)`; the reference it returns is the array itself. -/
def times [Mul T] (a : SizedArray T) (x : T) : Except Fatal (SizedArray T) :=
  match thrust_transform (fun e y => e * y) a.data a.size x with
  | .error e => .error e
  | .ok d => .ok { a with data := d }

end SizedArray

/-! ## Shape invariant and call sequences -/

/-- The product of the extents `shape[0..ndim)`. -/
def extentProduct (shape : Nat → Int) (ndim : Int) : Int :=
  ((List.range ndim.toNat).map shape).prod

/-- The shape invariant: the extents `shape[0..ndim)` multiply to `size` and none of
them is zero. -/
def ShapeInvariant {T : Type} (a : SizedArray T) : Prop :=
  extentProduct a.shape a.ndim = a.size ∧ ∀ i, i < a.ndim.toNat → a.shape i ≠ 0

/-- The arrays produced by a successful constructor and then by successful `reshape`,
`flatten` and `transpose` calls; the source of a copy construction is such an array
itself. -/
inductive Reachable {T : Type} : SizedArray T → Prop where
  | construct (mem : Option (Nat → T)) (slots : Nat → Int) (size : Int) (name : String)
      (a : SizedArray T) (h : SizedArray.construct mem slots size name = .ok a) : Reachable a
  | constructCopy (mem : Option (Nat → T)) (slots : Nat → Int) (S : SizedArray T)
      (deep : Bool) (a : SizedArray T) (hS : Reachable S)
      (h : SizedArray.constructCopy mem slots S deep = .ok a) : Reachable a
  | constructRaw (mem : Option (Nat → T)) (slots : Nat → Int) (rawptr : Option (Nat → T))
      (size : Int) (name : String) (from_host : Bool) (a : SizedArray T)
      (h : SizedArray.constructRaw mem slots rawptr size name from_host = .ok a) : Reachable a
  | constructND (mem : Option (Nat → T)) (slots : Nat → Int) (rawptr : Option (Nat → T))
      (ndim : Int) (s : Nat → Int) (name : String) (from_host : Bool) (a : SizedArray T)
      (h : SizedArray.constructND mem slots rawptr ndim s name from_host = .ok a) : Reachable a
  | reshape (a b : SizedArray T) (h w : Int) (ha : Reachable a)
      (hb : a.reshape h w = .ok b) : Reachable b
  | flatten (a : SizedArray T) (ha : Reachable a) : Reachable a.flatten
  | transpose (a b : SizedArray T) (out : Nat → T) (strategy : Int) (ha : Reachable a)
      (hb : a.transpose out strategy = .ok b) : Reachable b

/-! ## Arrays held by address

For the claims about two arrays and the buffers behind them, device memory is a map
from addresses to blocks, and an array holds the address of its block. -/

/-- Device memory: the block allocated at each address, `none` where there is none. -/
abbrev DeviceMem (T : Type) := Nat → Option (Nat → T)

/-- The fields of `struct SizedArray<T>` with `data` kept as an address. -/
structure ArrayAt (T : Type) where
  owner : Bool
  data : Nat
  ndim : Int
  size : Int
  shape : Nat → Int
  name : String

/-- A call that mutates an array: `set(i, x)`, `set(i, j, x)`, `plus(x)`, `times(x)`, or
`transpose(strategy)` together with the address `out` and the contents `fresh` of the
scratch block its `device_malloc` hands back. -/
inductive Mutation (T : Type) where
  | set (i : Int) (x : T)
  | set2 (i j : Int) (x : T)
  | plus (x : T)
  | times (x : T)
  | transpose (out : Nat) (fresh : Nat → T) (strategy : Int)

/-- The call allocates nothing at address `p`. -/
def Mutation.avoids {T : Type} (p : Nat) : Mutation T → Prop
  | .transpose out _ _ => out ≠ p
  | _ => True

namespace ArrayAt

variable {T : Type}

/-- The array behind the handle: `data` replaced by the block it points at. -/
def load (r : ArrayAt T) (m : DeviceMem T) : SizedArray T :=
  { owner := r.owner, data := m r.data, ndim := r.ndim, size := r.size,
    shape := r.shape, name := r.name }

/-- The copy constructor `SizedArray(SizedArray<T> const &S, bool deep)` on handles:
`out` and `fresh` are the address and contents of the block from `device_malloc`.  When
`deep`, the new array points at `out`; otherwise it takes over the pointer of `S`. -/
def copy (S : ArrayAt T) (m : DeviceMem T) (out : Nat) (fresh : Nat → T)
    (slots : Nat → Int) (deep : Bool) : Except Fatal (ArrayAt T × DeviceMem T) :=
  match SizedArray.constructCopy (some fresh) slots (S.load m) deep with
  | .error e => .error e
  | .ok c =>
    if deep then
      .ok ({ owner := c.owner, data := out, ndim := c.ndim, size := c.size,
             shape := c.shape, name := c.name }, Function.update m out c.data)
    else
      .ok ({ owner := c.owner, data := S.data, ndim := c.ndim, size := c.size,
             shape := c.shape, name := c.name }, m)

/-- A member call that writes through `data` without moving it (`set`, `plus`,
`times`): the block at `data` takes the new contents. -/
def writeBack (r : ArrayAt T) (m : DeviceMem T) (res : Except Fatal (SizedArray T)) :
    Except Fatal (ArrayAt T × DeviceMem T) :=
  match res with
  | .error e => .error e
  | .ok a => .ok (r, Function.update m r.data a.data)

/-- One mutating call on the array behind `r`.  In `transpose` an owning array swaps
its pointer with the scratch pointer and frees its old block; an array that does not
own copies the scratch block back through `data`. -/
def apply [Add T] [Mul T] (r : ArrayAt T) (m : DeviceMem T) :
    Mutation T → Except Fatal (ArrayAt T × DeviceMem T)
  | .set i x => r.writeBack m ((r.load m).set i x)
  | .set2 i j x => r.writeBack m ((r.load m).set2 i j x)
  | .plus x => r.writeBack m ((r.load m).plus x)
  | .times x => r.writeBack m ((r.load m).times x)
  | .transpose out fresh strategy =>
    if r.ndim ≠ 2 then .ok (r, m)
    else
      match (r.load m).transpose fresh strategy with
      | .error e => .error e
      | .ok a =>
        if r.owner then
          .ok ({ r with data := out, ndim := a.ndim, shape := a.shape },
                Function.update (Function.update m r.data none) out a.data)
        else
          .ok ({ r with ndim := a.ndim, shape := a.shape },
                Function.update m r.data a.data)

/-- A sequence of mutating calls, stopping at the first fatal one. -/
def applyAll [Add T] [Mul T] (r : ArrayAt T) (m : DeviceMem T) :
    List (Mutation T) → Except Fatal (ArrayAt T × DeviceMem T)
  | [] => .ok (r, m)
  | op :: ops =>
    match r.apply m op with
    | .error e => .error e
    | .ok (r1, m1) => applyAll r1 m1 ops

end ArrayAt

/-! ## Concrete arrays used in the examples -/

/-- A flat owning array of six cells holding 1..6. -/
def flat6 : SizedArray Int :=
  { owner := true, data := some (fun k => (k : Int) + 1), ndim := 1, size := 6,
    shape := Function.update (fun _ => 0) 0 6, name := "A" }

/-- The array `flat6` after `reshape(2, 3)`: the matrix [[1,2,3],[4,5,6]]. -/
def grid23 : SizedArray Int :=
  { flat6 with shape := Function.update (Function.update flat6.shape 0 2) 1 3, ndim := 2 }

/-- A flat owning array of 2^32 cells. -/
def flatHuge : SizedArray Int :=
  { owner := true, data := some (fun _ => 0), ndim := 1, size := 4294967296,
    shape := Function.update (fun _ => 0) 0 4294967296, name := "H" }

/-- An owning 3 × 2^31 matrix whose cell at offset `k` holds `k`. -/
def wide : SizedArray Int :=
  { owner := true, data := some (fun k => (k : Int)), ndim := 2, size := 6442450944,
    shape := Function.update (Function.update (fun _ => 0) 0 3) 1 2147483648, name := "W" }

/-- A flat owning array of four cells holding 1, 2, 3, 4. -/
def flat4 : SizedArray Int :=
  { owner := true, data := some (fun k => (k : Int) + 1), ndim := 1, size := 4,
    shape := Function.update (fun _ => 0) 0 4, name := "A" }

/-- An owning 2^17 × 2^16 matrix (2^33 cells). -/
def tall : SizedArray Int :=
  { owner := true, data := some (fun k => (k : Int)), ndim := 2, size := 8589934592,
    shape := Function.update (Function.update (fun _ => 0) 0 131072) 1 65536, name := "T" }

/-- Device memory holding the cells 1..6 at address 1 and nothing elsewhere. -/
def mem1 : DeviceMem Int :=
  Function.update (fun _ => none) 1 (some (fun k => (k : Int) + 1))

/-- The 2 × 3 matrix [[1,2,3],[4,5,6]] as an owning array whose buffer is at address 1. -/
def gridAt1 : ArrayAt Int :=
  { owner := true, data := 1, ndim := 2, size := 6,
    shape := Function.update (Function.update (fun _ => 0) 0 2) 1 3, name := "S" }

/-- A sequence with each kind of mutating call; its `transpose` gets its scratch block
at address 3. -/
def sampleMutations : List (Mutation Int) :=
  [.set 0 9, .plus 1, .times 2, .transpose 3 (fun _ => 0) 1, .set2 2 1 7]

/-- An element type with a value that multiplication cannot clear: `nan` times anything
is `nan`, as a not-a-number is for floating-point multiplication; the other values
are integers. -/
inductive Scalar where
  | num (x : Int)
  | nan
  deriving DecidableEq, Repr

/-- Multiplication of `Scalar`: integers multiply, `nan` absorbs. -/
def Scalar.mul : Scalar → Scalar → Scalar
  | .num x, .num y => .num (x * y)
  | _, _ => .nan

instance : Mul Scalar := ⟨Scalar.mul⟩

instance : Zero Scalar := ⟨Scalar.num 0⟩

instance : One Scalar := ⟨Scalar.num 1⟩

/-- An owning array of two `Scalar` cells holding 5 and `nan`. -/
def withNan : SizedArray Scalar :=
  { owner := true, data := some (fun k => if k = 0 then Scalar.num 5 else Scalar.nan),
    ndim := 1, size := 2, shape := Function.update (fun _ => 0) 0 2, name := "N" }

/-! ## Auxiliary facts -/

theorem toCInt_of_fits (x : Int) (h0 : -2147483648 ≤ x) (h1 : x < 2147483648) :
    toCInt x = x := by
  unfold toCInt; omega

theorem reshape_fields {T : Type} (a b : SizedArray T) (h w : Int)
    (hb : a.reshape h w = .ok b) :
    h * w = a.size ∧ b.ndim = 2 ∧ b.shape 0 = h ∧ b.shape 1 = w ∧ b.size = a.size ∧
      b.data = a.data ∧ b.owner = a.owner := by
  unfold SizedArray.reshape at hb
  by_cases hs : h * w = a.size
  · simp only [hs, ne_eq, not_true_eq_false, if_false] at hb
    cases hb
    simp [hs]
  · simp [hs] at hb

theorem flat_lt_of_coords (h w i j : Int) (hi0 : 0 ≤ i) (hi : i < h) (hj0 : 0 ≤ j)
    (hj : j < w) : 0 ≤ i * w + j ∧ i * w + j < h * w := by
  have hw : 0 < w := lt_of_le_of_lt hj0 hj
  constructor
  · positivity
  · nlinarith

theorem idx2_in_bounds {T : Type} (a : SizedArray T) (h w i j : Int)
    (hnd : a.ndim = 2) (h0 : a.shape 0 = h) (h1 : a.shape 1 = w) (hsz : h * w = a.size)
    (hi0 : 0 ≤ i) (hi : i < h) (hj0 : 0 ≤ j) (hj : j < w)
    (hfit : i * w + j < 2147483648) :
    a.idx2 i j = .ok (i * w + j) := by
  obtain ⟨hk0, hk1⟩ := flat_lt_of_coords h w i j hi0 hi hj0 hj
  have hk : toCInt (i * w + j) = i * w + j := toCInt_of_fits _ (by omega) hfit
  unfold SizedArray.idx2
  simp only [hnd, h0, h1, hk, ← hsz]
  simp [not_le.mpr hi, not_le.mpr hj, not_lt.mpr hk0, not_le.mpr hk1]

theorem checked_ok {T : Type} (a b : SizedArray T) (h : a.checked = .ok b) :
    b = a ∧ a.owner = true ∧ a.data.isSome = true ∧ a.ndim ≤ 8 ∧
      ∀ i, i < a.ndim.toNat → a.shape i ≠ 0 := by
  unfold SizedArray.checked SizedArray.sanity_check at h
  cases ho : a.owner
  · simp [ho] at h
  · cases hd : a.data with
    | none => simp [ho, hd] at h
    | some cells =>
      by_cases hn : a.ndim > 8
      · simp [ho, hd, hn] at h
      · cases hf : (List.range a.ndim.toNat).find? (fun i => a.shape i == 0) with
        | some i => simp [ho, hd, hn, hf] at h
        | none =>
          simp [ho, hd, hn, hf] at h
          refine ⟨h.symm, rfl, rfl, not_lt.mp hn, ?_⟩
          intro i hi
          rw [List.find?_eq_none] at hf
          have := hf i (List.mem_range.mpr hi)
          simpa using this

theorem checked_not_owner {T : Type} (a : SizedArray T) (h : a.owner = false) :
    a.checked = .error .notOwner := by
  unfold SizedArray.checked SizedArray.sanity_check
  simp [h]

theorem kernel_read {T : Type} (dst src : Nat → T) (rows cols k : Nat)
    (hk : k < rows * cols) :
    transposeNoBankConflicts dst src rows cols k = src ((k % rows) * cols + k / rows) := by
  unfold transposeNoBankConflicts
  simp only [Int.toNat_ofNat]
  rw [if_pos hk]

/-- The closed form `transposeNoBankConflicts` meets the kernel contract
`dst[c*rows + r] = src[r*cols + c]`. -/
theorem kernel_contract {T : Type} (dst src : Nat → T) (rows cols r c : Nat)
    (hr : r < rows) (hc : c < cols) :
    transposeNoBankConflicts dst src rows cols (c * rows + r) = src (r * cols + c) := by
  have hlt : c * rows + r < rows * cols := by nlinarith
  rw [kernel_read dst src rows cols _ hlt]
  have hm : (c * rows + r) % rows = r := by
    rw [Nat.add_comm, Nat.add_mul_mod_self_right, Nat.mod_eq_of_lt hr]
  have hd : (c * rows + r) / rows = c := by
    rw [Nat.add_comm, Nat.add_mul_div_right _ _ (by omega), Nat.div_eq_of_lt hr, Nat.zero_add]
  rw [hm, hd]

/-- Cells of `dst` at and beyond `rows*cols` are not written by the kernel. -/
theorem kernel_outside {T : Type} (dst src : Nat → T) (rows cols k : Nat)
    (hk : rows * cols ≤ k) :
    transposeNoBankConflicts dst src rows cols k = dst k := by
  unfold transposeNoBankConflicts
  simp only [Int.toNat_ofNat]
  rw [if_neg (not_lt.mpr hk)]

theorem kernel_unflatten {T : Type} (dst src : Nat → T) (rows cols k : Nat)
    (hk : k < rows * cols) :
    (k % cols) * rows + k / cols < rows * cols ∧
    transposeNoBankConflicts dst src rows cols ((k % cols) * rows + k / cols) = src k := by
  have hc : 0 < cols := by
    rcases Nat.eq_zero_or_pos cols with h0 | h0
    · subst h0; simp at hk
    · exact h0
  have hr : k / cols < rows := (Nat.div_lt_iff_lt_mul hc).mpr hk
  have hm : k % cols < cols := Nat.mod_lt _ hc
  refine ⟨by nlinarith, ?_⟩
  rw [kernel_contract dst src rows cols _ _ hr hm, Nat.div_add_mod']

theorem transpose_ok {T : Type} (a b : SizedArray T) (out src : Nat → T) (s : Int)
    (hnd : a.ndim = 2) (hdata : a.data = some src) (hb : a.transpose out s = .ok b) :
    s = 1 ∧ a.shape 1 * a.shape 0 = a.size ∧ b.ndim = 2 ∧ b.size = a.size ∧
      b.shape = Function.update (Function.update a.shape 0 (a.shape 1)) 1 (a.shape 0) ∧
      b.owner = a.owner ∧ b.name = a.name ∧
      ∃ buf, b.data = some buf ∧ ∀ k : Nat, (k : Int) < a.size →
        buf k = transposeNoBankConflicts out src (a.shape 0) (a.shape 1) k := by
  unfold SizedArray.transpose SizedArray.reshape at hb
  by_cases hs : s = 1
  · by_cases hp : a.shape 1 * a.shape 0 = a.size
    · cases ho : a.owner
      · simp [hnd, hs, hdata, hp, ho] at hb
        subst hb
        refine ⟨hs, hp, rfl, rfl, rfl, rfl, rfl, _, rfl, ?_⟩
        intro k hk
        simp [copyCells, hk]
      · simp [hnd, hs, hdata, hp, ho] at hb
        subst hb
        exact ⟨hs, hp, rfl, rfl, rfl, rfl, rfl, _, rfl, fun k _ => rfl⟩
    · simp [hnd, hs, hdata, hp] at hb
  · simp [hnd, hs] at hb

theorem transpose_succeeds {T : Type} (a : SizedArray T) (out src : Nat → T)
    (hnd : a.ndim = 2) (hdata : a.data = some src)
    (hsz : a.shape 0 * a.shape 1 = a.size) :
    ∃ b, a.transpose out 1 = .ok b := by
  have hp : a.shape 1 * a.shape 0 = a.size := by rw [mul_comm]; exact hsz
  unfold SizedArray.transpose SizedArray.reshape
  cases ho : a.owner <;> simp [hnd, hdata, hp]

/-! ## reshape and the two-coordinate index -/

/-- C1: `reshape(h, w)` succeeds exactly when `h*w == size`, and the array it
leaves has `ndim == 2`, `shape[0] == h` and `shape[1] == w`. -/
theorem reshape_succeeds_iff {T : Type} (a : SizedArray T) (h w : Int) :
    ((∃ b, a.reshape h w = .ok b) ↔ h * w = a.size) ∧
    (∀ b, a.reshape h w = .ok b → b.ndim = 2 ∧ b.shape 0 = h ∧ b.shape 1 = w) := by
  unfold SizedArray.reshape
  by_cases hs : h * w = a.size
  · simp only [hs, ne_eq, not_true_eq_false, if_false]
    refine ⟨⟨fun _ => trivial, fun _ => ⟨_, rfl⟩⟩, ?_⟩
    intro b hb
    cases hb
    simp
  · simp [hs]

/-- C2, as stated, fails: on a flat array of 2^32 cells `reshape(65536, 65536)`
succeeds, the coordinates (32768, 0) are in range, and `idx(32768, 0)` is fatal,
because `32768 * 65536 = 2^31` stored into `int idx` becomes `-2^31`. -/
theorem idx2_after_reshape_overflows :
    (flatHuge.reshape 65536 65536).toOption.map (fun b => b.idx2 32768 0)
      = some (.error .flatRange) ∧
    (0 : Int) ≤ 32768 ∧ (32768 : Int) < 65536 ∧ (0 : Int) < 65536 ∧
    toCInt (32768 * 65536 + 0) = -2147483648 := by
  refine ⟨rfl, by decide, by decide, by decide, rfl⟩

/-- C2, amended: after a successful `reshape(h, w)`, for all `0 ≤ i < h` and
`0 ≤ j < w` whose flat index `i*w + j` fits in `int` (below 2^31), `idx(i, j)` does
not fail and returns exactly `i*w + j`. -/
theorem idx2_after_reshape {T : Type} (a b : SizedArray T) (h w i j : Int)
    (hb : a.reshape h w = .ok b) (hi0 : 0 ≤ i) (hi : i < h) (hj0 : 0 ≤ j) (hj : j < w)
    (hfit : i * w + j < 2147483648) :
    b.idx2 i j = .ok (i * w + j) := by
  obtain ⟨hsz, hnd, h0, h1, hbs, -, -⟩ := reshape_fields a b h w hb
  exact idx2_in_bounds b h w i j hnd h0 h1 (by rw [hbs]; exact hsz) hi0 hi hj0 hj hfit

/-- C2, witness: `flat6` reshaped to 2 × 3 and indexed at (1, 2). -/
theorem idx2_after_reshape_witness :
    flat6.reshape 2 3 = .ok grid23 ∧ grid23.idx2 1 2 = .ok (1 * 3 + 2) :=
  ⟨rfl, idx2_after_reshape flat6 grid23 2 3 1 2 rfl (by decide) (by decide) (by decide)
    (by decide) (by decide)⟩

/-! ## transpose -/

/-- C3, as stated, fails: in the owning 3 × 2^31 matrix `wide`, `get(2, 5)` returns
the cell at offset 5 (the flat index `2^32 + 5` stored into `int idx` becomes 5),
while after `transpose(1)` `get(5, 2)` returns the cell that was at offset
`2^32 + 5`. -/
theorem transpose_get2_overflows :
    wide.owner = true ∧ wide.shape 0 = 3 ∧ wide.shape 1 = 2147483648 ∧
    wide.get2 2 5 = .ok 5 ∧
    (wide.transpose (fun _ => 0) 1).toOption.map
      (fun b => (b.size, b.shape 0, b.shape 1, b.get2 5 2))
      = some (6442450944, 2147483648, 3, .ok 4294967301) := by
  refine ⟨rfl, rfl, rfl, rfl, rfl⟩

/-- C3, amended: for a 2D array of shape h × w (owning in particular) and strategy
code 1, `transpose` leaves `size` unchanged, sets the shape to (w, h), and afterwards
`get(j, i)` returns the value `get(i, j)` returned before, for all `0 ≤ i < h`,
`0 ≤ j < w` whose flat indices `i*w + j` and `j*h + i` fit in `int` (below 2^31). -/
theorem transpose_swaps_coordinates {T : Type} (a : SizedArray T) (out src : Nat → T)
    (h w : Int) (hnd : a.ndim = 2) (hdata : a.data = some src)
    (h0 : a.shape 0 = h) (h1 : a.shape 1 = w) (hh : 0 < h) (hw : 0 < w)
    (hsz : h * w = a.size) :
    ∃ b, a.transpose out 1 = .ok b ∧ b.size = a.size ∧ b.ndim = 2 ∧
      b.shape 0 = w ∧ b.shape 1 = h ∧
      ∀ i j, 0 ≤ i → i < h → 0 ≤ j → j < w →
        i * w + j < 2147483648 → j * h + i < 2147483648 →
        ∃ v, a.get2 i j = .ok v ∧ b.get2 j i = .ok v := by
  obtain ⟨b, hb⟩ := transpose_succeeds a out src hnd hdata (by rw [h0, h1]; exact hsz)
  obtain ⟨-, -, hbn, hbs, hbsh, -, -, buf, hbd, hbuf⟩ :=
    transpose_ok a b out src 1 hnd hdata hb
  have hb0 : b.shape 0 = w := by rw [hbsh]; simp [h1]
  have hb1 : b.shape 1 = h := by rw [hbsh]; simp [h0]
  refine ⟨b, hb, hbs, hbn, hb0, hb1, ?_⟩
  intro i j hi0 hi hj0 hj hf1 hf2
  obtain ⟨hl0, hl1⟩ := flat_lt_of_coords w h j i hj0 hj hi0 hi
  have ha : a.idx2 i j = .ok (i * w + j) :=
    idx2_in_bounds a h w i j hnd h0 h1 hsz hi0 hi hj0 hj hf1
  have hbi : b.idx2 j i = .ok (j * h + i) :=
    idx2_in_bounds b w h j i hbn hb0 hb1 (by rw [hbs, mul_comm]; exact hsz) hj0 hj hi0 hi hf2
  refine ⟨src (i * w + j).toNat, ?_, ?_⟩
  · simp [SizedArray.get2, ha, SizedArray.cell, hdata]
  · simp only [SizedArray.get2, hbi, SizedArray.cell, hbd]
    congr 1
    rw [hbuf _ (by rw [Int.toNat_of_nonneg hl0, ← hsz, mul_comm h w]; exact hl1), h0, h1]
    lift h to ℕ using le_of_lt hh
    lift w to ℕ using le_of_lt hw
    lift i to ℕ using hi0
    lift j to ℕ using hj0
    have e1 : ((j : Int) * h + i).toNat = j * h + i := by
      rw [← Int.toNat_ofNat (j * h + i)]; push_cast; rfl
    have e2 : ((i : Int) * w + j).toNat = i * w + j := by
      rw [← Int.toNat_ofNat (i * w + j)]; push_cast; rfl
    rw [e1, e2]
    exact kernel_contract out src h w i j (by exact_mod_cast hi) (by exact_mod_cast hj)

/-- C3, witness: the 2 × 3 matrix [[1,2,3],[4,5,6]] becomes the 3 × 2 matrix
[[1,4],[2,5],[3,6]]. -/
theorem transpose_swaps_coordinates_witness :
    (∃ b, grid23.transpose (fun _ => 0) 1 = .ok b ∧ b.size = grid23.size ∧ b.ndim = 2 ∧
      b.shape 0 = 3 ∧ b.shape 1 = 2 ∧
      ∀ i j, 0 ≤ i → i < 2 → 0 ≤ j → j < 3 →
        i * 3 + j < 2147483648 → j * 2 + i < 2147483648 →
        ∃ v, grid23.get2 i j = .ok v ∧ b.get2 j i = .ok v) ∧
    (grid23.transpose (fun _ => 0) 1).toOption.map
      (fun b => [[b.get2 0 0, b.get2 0 1], [b.get2 1 0, b.get2 1 1], [b.get2 2 0, b.get2 2 1]])
      = some [[.ok 1, .ok 4], [.ok 2, .ok 5], [.ok 3, .ok 6]] :=
  ⟨transpose_swaps_coordinates grid23 (fun _ => 0) (fun k => (k : Int) + 1) 2 3 rfl rfl rfl rfl
    (by decide) (by decide) rfl, rfl⟩

/-- C4: for a 2D array (extents positive, their product equal to `size`, buffer
non-null) and every strategy code with which `transpose` does not fail (code 1 is
one), applying `transpose` twice reproduces `ndim`, `size`, every `shape` slot and the
element at every linear position below `size`. -/
theorem transpose_twice {T : Type} (a : SizedArray T) (src out1 out2 : Nat → T)
    (hnd : a.ndim = 2) (hdata : a.data = some src)
    (hh : 0 < a.shape 0) (hw : 0 < a.shape 1) (hsz : a.shape 0 * a.shape 1 = a.size) :
    (∃ b c, a.transpose out1 1 = .ok b ∧ b.transpose out2 1 = .ok c) ∧
    ∀ (s : Int) (b c : SizedArray T), a.transpose out1 s = .ok b → b.transpose out2 s = .ok c →
      c.ndim = a.ndim ∧ c.size = a.size ∧ c.shape = a.shape ∧ c.owner = a.owner ∧
        ∀ k : Nat, (k : Int) < a.size → ∃ v, a.cell k = .ok v ∧ c.cell k = .ok v := by
  have key : ∀ (s : Int) (b : SizedArray T), a.transpose out1 s = .ok b →
      ∃ buf, b.ndim = 2 ∧ b.data = some buf ∧ b.shape 0 * b.shape 1 = b.size := by
    intro s b hb
    obtain ⟨-, hp, hbn, hbs, hbsh, -, -, buf, hbd, -⟩ :=
      transpose_ok a b out1 src s hnd hdata hb
    refine ⟨buf, hbn, hbd, ?_⟩
    rw [hbsh, hbs]; simpa using hp
  constructor
  · obtain ⟨b, hb⟩ := transpose_succeeds a out1 src hnd hdata hsz
    obtain ⟨buf, hbn, hbd, hbp⟩ := key 1 b hb
    obtain ⟨c, hc⟩ := transpose_succeeds b out2 buf hbn hbd hbp
    exact ⟨b, c, hb, hc⟩
  · intro s b c hb hc
    obtain ⟨-, hp, hbn, hbs, hbsh, hbo, -, buf, hbd, hbuf⟩ :=
      transpose_ok a b out1 src s hnd hdata hb
    obtain ⟨-, -, hcn, hcs, hcsh, hco, -, buf2, hcd, hcbuf⟩ :=
      transpose_ok b c out2 buf s hbn hbd hc
    have hb0 : b.shape 0 = a.shape 1 := by rw [hbsh]; simp
    have hb1 : b.shape 1 = a.shape 0 := by rw [hbsh]; simp
    refine ⟨by rw [hcn, hnd], by rw [hcs, hbs], ?_, by rw [hco, hbo], ?_⟩
    · rw [hcsh, hb0, hb1, hbsh]
      funext n
      by_cases n1 : n = 1
      · subst n1; simp
      · by_cases n0 : n = 0
        · subst n0; simp
        · simp [Function.update, n0, n1]
    · intro k hk
      refine ⟨src k, by simp [SizedArray.cell, hdata], ?_⟩
      simp only [SizedArray.cell, hcd, Int.toNat_ofNat]
      congr 1
      rw [hcbuf k (by rw [hbs]; exact hk), hb0, hb1]
      generalize a.shape 0 = h at *
      generalize a.shape 1 = w at *
      lift h to ℕ using le_of_lt hh
      lift w to ℕ using le_of_lt hw
      have hk2 : k < h * w := by rw [← hsz] at hk; exact_mod_cast hk
      have hk3 : k < w * h := by rw [mul_comm]; exact hk2
      obtain ⟨hlt, hval⟩ := kernel_unflatten out1 src h w k hk2
      rw [kernel_read out2 buf w h k hk3,
        hbuf _ (by rw [← hsz]; exact_mod_cast hlt), hval]

/-- C4, witness: transposing the 2 × 3 matrix `grid23` twice. -/
theorem transpose_twice_witness :
    (∃ b c, grid23.transpose (fun _ => 0) 1 = .ok b ∧ b.transpose (fun _ => 9) 1 = .ok c) ∧
    ∀ (s : Int) (b c : SizedArray Int),
      grid23.transpose (fun _ => 0) s = .ok b → b.transpose (fun _ => 9) s = .ok c →
      c.ndim = grid23.ndim ∧ c.size = grid23.size ∧ c.shape = grid23.shape ∧
        c.owner = grid23.owner ∧
        ∀ k : Nat, (k : Int) < grid23.size → ∃ v, grid23.cell k = .ok v ∧ c.cell k = .ok v :=
  transpose_twice grid23 (fun k => (k : Int) + 1) (fun _ => 0) (fun _ => 9) rfl rfl
    (by decide) (by decide) rfl

/-! ## Index checks -/

/-- C5: `idx(i)` fails exactly when `i < 0` or `i ≥ size`, and when it does not fail it
returns `i`; in particular `idx(5)` fails on an array of size 4. -/
theorem idx_fails_iff {T : Type} (a : SizedArray T) (i : Int) :
    ((∃ e, a.idx i = .error e) ↔ (i < 0 ∨ a.size ≤ i)) ∧
    ((¬ ∃ e, a.idx i = .error e) → a.idx i = .ok i) ∧
    (a.size = 4 → a.idx 5 = .error .linearRange) := by
  unfold SizedArray.idx
  refine ⟨?_, ?_, ?_⟩
  · by_cases hc : i < 0 ∨ a.size ≤ i
    · simp [hc]
    · simp [hc]
  · by_cases hc : i < 0 ∨ a.size ≤ i
    · simp [hc]
    · simp [hc]
  · intro h4
    simp [h4]

/-- C6: `idx(i, j)` fails with the dimensionality error whenever `ndim != 2`, and on
an array with `ndim == 2` it fails with a range error whenever `i ≥ shape[0]` or
`j ≥ shape[1]`. -/
theorem idx2_fails {T : Type} (a : SizedArray T) (i j : Int) :
    (a.ndim ≠ 2 → a.idx2 i j = .error .not2D) ∧
    (a.ndim = 2 → (i ≥ a.shape 0 ∨ j ≥ a.shape 1) →
      (a.idx2 i j = .error .rowRange ∨ a.idx2 i j = .error .colRange)) := by
  unfold SizedArray.idx2
  refine ⟨?_, ?_⟩
  · intro h; simp [h]
  · intro h hij
    by_cases hi : i ≥ a.shape 0
    · left; simp [h, hi]
    · right
      have hj : j ≥ a.shape 1 := hij.resolve_left hi
      simp [h, hi, hj]

/-- C7, the code at the failing input: on the 2 × 3 matrix `grid23` (extents
positive, `2*3 == size`) `idx(1, -1)` returns 2, the index of the cell (0, 2), although
the column -1 is not in [0, 3). -/
theorem idx2_negative_column :
    grid23.ndim = 2 ∧ grid23.shape 0 * grid23.shape 1 = grid23.size ∧
    0 < grid23.shape 0 ∧ 0 < grid23.shape 1 ∧
    grid23.idx2 1 (-1) = .ok 2 ∧ grid23.idx2 0 2 = .ok 2 := by
  refine ⟨rfl, rfl, by decide, by decide, rfl, rfl⟩

/-! ## Construction -/

/-- C8: for every `size > 0` and every name, when the allocation yields a block,
`SizedArray(size, name)` succeeds with `owner == true`, `ndim == 1`, `size` as given
and `shape[0] == size`. -/
theorem construct_owning {T : Type} (mem : Nat → T) (slots : Nat → Int) (size : Int)
    (name : String) (hpos : 0 < size) :
    ∃ a, SizedArray.construct (some mem) slots size name = .ok a ∧
      a.owner = true ∧ a.ndim = 1 ∧ a.size = size ∧ a.shape 0 = size := by
  refine ⟨{ owner := true, data := some mem, ndim := 1, size := size,
            shape := Function.update slots 0 size, name := name }, ?_, rfl, rfl, rfl, by simp⟩
  unfold SizedArray.construct SizedArray.checked SizedArray.sanity_check
  have hne : size ≠ 0 := ne_of_gt hpos
  simp [List.range_succ, hne]

/-- C8, witness: `SizedArray(4, "A")`. -/
theorem construct_owning_witness :
    (0 : Int) < 4 ∧
    ∃ a, SizedArray.construct (some (fun _ => (0 : Int))) (fun _ => 0) 4 "A" = .ok a ∧
      a.owner = true ∧ a.ndim = 1 ∧ a.size = 4 ∧ a.shape 0 = 4 :=
  ⟨by decide, construct_owning (fun _ => (0 : Int)) (fun _ => 0) 4 "A" (by decide)⟩

/-- C9: every aliasing construction is fatal at the ownership test of
`sanity_check`: the copy constructor with `deep == false` and both raw-pointer
constructors with `from_host == false`, whatever their other arguments. -/
theorem aliasing_construction_fails {T : Type} :
    (∀ (mem : Option (Nat → T)) (slots : Nat → Int) (S : SizedArray T),
      SizedArray.constructCopy mem slots S false = .error .notOwner) ∧
    (∀ (mem : Option (Nat → T)) (slots : Nat → Int) (rawptr : Option (Nat → T)) (size : Int)
      (name : String),
      SizedArray.constructRaw mem slots rawptr size name false = .error .notOwner) ∧
    (∀ (mem : Option (Nat → T)) (slots : Nat → Int) (rawptr : Option (Nat → T)) (ndim : Int)
      (s : Nat → Int) (name : String),
      SizedArray.constructND mem slots rawptr ndim s name false = .error .notOwner) := by
  refine ⟨?_, ?_, ?_⟩
  · intro mem slots S
    simp [SizedArray.constructCopy, checked_not_owner]
  · intro mem slots rawptr size name
    simp [SizedArray.constructRaw, checked_not_owner]
  · intro mem slots rawptr ndim s name
    simp [SizedArray.constructND, checked_not_owner]

/-- C10, as stated, fails: the N-D raw-pointer constructor called with `ndim == 0` and
`from_host == true` succeeds and yields an array with `ndim == 0` (and `size == 1`). -/
theorem constructND_zero_dims :
    (SizedArray.constructND (some (fun _ => (0 : Int))) (fun _ => 0) (some (fun _ => 7)) 0
      (fun _ => 0) "scalar" true).toOption.map (fun a => (a.owner, a.ndim, a.size))
      = some (true, 0, 1) := by
  rfl

/-- C10, amended: every array whose construction succeeds has `ndim ≤ 8`: the size
constructor and the 1-D raw-pointer constructor give `ndim == 1`, the copy constructor
gives the `ndim` of its source, and the N-D raw-pointer constructor with
`from_host == true` either fails or gives `ndim` equal to its argument, so that
`1 ≤ ndim ≤ 8` holds when the argument is at least 1. -/
theorem constructed_ndim {T : Type} :
    (∀ (mem : Option (Nat → T)) (slots : Nat → Int) (size : Int) (name : String)
      (a : SizedArray T), SizedArray.construct mem slots size name = .ok a → a.ndim = 1) ∧
    (∀ (mem : Option (Nat → T)) (slots : Nat → Int) (S : SizedArray T) (deep : Bool)
      (a : SizedArray T), SizedArray.constructCopy mem slots S deep = .ok a →
        a.ndim = S.ndim ∧ a.ndim ≤ 8) ∧
    (∀ (mem : Option (Nat → T)) (slots : Nat → Int) (rawptr : Option (Nat → T)) (size : Int)
      (name : String) (from_host : Bool) (a : SizedArray T),
      SizedArray.constructRaw mem slots rawptr size name from_host = .ok a → a.ndim = 1) ∧
    (∀ (mem : Option (Nat → T)) (slots : Nat → Int) (rawptr : Option (Nat → T)) (ndim : Int)
      (s : Nat → Int) (name : String) (a : SizedArray T),
      SizedArray.constructND mem slots rawptr ndim s name true = .ok a →
        a.ndim = ndim ∧ a.ndim ≤ 8 ∧ (1 ≤ ndim → 1 ≤ a.ndim ∧ a.ndim ≤ 8)) := by
  refine ⟨?_, ?_, ?_, ?_⟩
  · intro mem slots size name a h
    obtain ⟨rfl, -⟩ := checked_ok _ _ h
    rfl
  · intro mem slots S deep a h
    unfold SizedArray.constructCopy at h
    dsimp only at h
    split at h
    · cases h
    · obtain ⟨rfl, -, -, h8, -⟩ := checked_ok _ _ h
      exact ⟨rfl, h8⟩
  · intro mem slots rawptr size name from_host a h
    unfold SizedArray.constructRaw at h
    dsimp only at h
    split at h
    · cases h
    · obtain ⟨rfl, -⟩ := checked_ok _ _ h
      rfl
  · intro mem slots rawptr ndim s name a h
    unfold SizedArray.constructND at h
    dsimp only at h
    split at h
    · cases h
    · obtain ⟨rfl, -, -, h8, -⟩ := checked_ok _ _ h
      exact ⟨rfl, h8, fun h1 => ⟨h1, h8⟩⟩

/-! ## Deep copy, flatten, row-major access -/

theorem copyShape_below (f slots : Nat → Int) (n i : Nat) (hi : i < n) :
    SizedArray.copyShape f (n : Int) slots i = f i := by
  unfold SizedArray.copyShape
  simp only [Int.toNat_ofNat]
  induction n with
  | zero => omega
  | succ n ih =>
    rw [List.range_succ, List.foldl_append]
    simp only [List.foldl_cons, List.foldl_nil]
    by_cases hin : i = n
    · subst hin; simp
    · rw [Function.update_noteq hin]
      exact ih (by omega)

theorem checked_pass {T : Type} (a : SizedArray T) (ho : a.owner = true)
    (hd : a.data.isSome = true) (hn : a.ndim ≤ 8)
    (hext : ∀ i, i < a.ndim.toNat → a.shape i ≠ 0) : a.checked = .ok a := by
  unfold SizedArray.checked SizedArray.sanity_check
  have hf : (List.range a.ndim.toNat).find? (fun i => a.shape i == 0) = none := by
    rw [List.find?_eq_none]
    intro i hi
    simpa using hext i (List.mem_range.mp hi)
  have hd2 : a.data.isNone = false := by
    cases hda : a.data with
    | none => simp [hda] at hd
    | some d => rfl
  simp [ho, hd2, not_lt.mpr hn, hf]

/-- C13: for a source `S` with a non-null buffer, `ndim ≤ 8` and no zero extent among
`shape[0..ndim)`, the copy constructor with `deep == true` (the allocation yielding a
block) succeeds and gives an owning array with the `ndim`, the `size`, the extents
`shape[0..ndim)` and the element at every linear position `0 ≤ k < size` of `S`. -/
theorem deep_copy_equal {T : Type} (S : SizedArray T) (src fresh : Nat → T)
    (slots : Nat → Int) (hdata : S.data = some src) (hnd : S.ndim ≤ 8)
    (hext : ∀ i, i < S.ndim.toNat → S.shape i ≠ 0) :
    ∃ c, SizedArray.constructCopy (some fresh) slots S true = .ok c ∧
      c.owner = true ∧ c.ndim = S.ndim ∧ c.size = S.size ∧
      (∀ i, i < S.ndim.toNat → c.shape i = S.shape i) ∧
      ∀ k : Nat, (k : Int) < S.size → ∃ v, S.cell k = .ok v ∧ c.cell k = .ok v := by
  have hsh : ∀ i, i < S.ndim.toNat →
      SizedArray.copyShape S.shape S.ndim slots i = S.shape i := by
    intro i hi
    have h0 : 0 ≤ S.ndim := by
      by_contra hneg
      rw [Int.toNat_of_nonpos (by omega)] at hi
      omega
    have := copyShape_below S.shape slots S.ndim.toNat i hi
    rwa [Int.toNat_of_nonneg h0] at this
  have hchk : ∀ d : Nat → T, ∀ c : SizedArray T,
      c = ⟨true, some d, S.ndim, S.size, SizedArray.copyShape S.shape S.ndim slots, S.name⟩ →
      c.checked = .ok c := by
    intro d c hc
    subst hc
    exact checked_pass _ rfl rfl hnd (fun i hi => by
      show SizedArray.copyShape S.shape S.ndim slots i ≠ 0
      rw [hsh i hi]; exact hext i hi)
  by_cases hs : S.size ≤ 0
  · refine ⟨⟨true, some fresh, S.ndim, S.size, SizedArray.copyShape S.shape S.ndim slots,
      S.name⟩, ?_, rfl, rfl, rfl, hsh, ?_⟩
    · unfold SizedArray.constructCopy thrust_copy
      simp only [hs, if_true]
      exact hchk fresh _ rfl
    · intro k hk
      exfalso
      have : (0 : Int) ≤ k := Int.ofNat_nonneg k
      omega
  · refine ⟨⟨true, some (copyCells src S.size fresh), S.ndim, S.size,
      SizedArray.copyShape S.shape S.ndim slots, S.name⟩, ?_, rfl, rfl, rfl, hsh, ?_⟩
    · unfold SizedArray.constructCopy thrust_copy
      simp only [hs, if_true, if_false, hdata]
      exact hchk (copyCells src S.size fresh) _ rfl
    · intro k hk
      refine ⟨src k, by simp [SizedArray.cell, hdata], ?_⟩
      simp [SizedArray.cell, copyCells, hk]

/-- C13, witness: the deep copy of the 2 × 3 matrix `grid23`. -/
theorem deep_copy_equal_witness :
    ∃ c, SizedArray.constructCopy (some (fun _ => 0)) (fun _ => 0) grid23 true = .ok c ∧
      c.owner = true ∧ c.ndim = grid23.ndim ∧ c.size = grid23.size ∧
      (∀ i, i < grid23.ndim.toNat → c.shape i = grid23.shape i) ∧
      ∀ k : Nat, (k : Int) < grid23.size → ∃ v, grid23.cell k = .ok v ∧ c.cell k = .ok v :=
  deep_copy_equal grid23 (fun k => (k : Int) + 1) (fun _ => 0) (fun _ => 0) rfl (by decide)
    (by
      intro i hi
      have h2 : i < 2 := hi
      interval_cases i <;> decide)

/-- C14: after a successful `reshape(h, w)`, `flatten()` gives `ndim == 1` and
`shape[0] == size`, and leaves `size`, the buffer and its elements, the owner flag
and the name as they were before the `reshape`. -/
theorem flatten_after_reshape {T : Type} (a b : SizedArray T) (h w : Int)
    (hb : a.reshape h w = .ok b) :
    b.flatten.ndim = 1 ∧ b.flatten.shape 0 = a.size ∧ b.flatten.size = a.size ∧
      b.flatten.data = a.data ∧ b.flatten.owner = a.owner ∧ b.flatten.name = a.name := by
  unfold SizedArray.reshape at hb
  by_cases hs : h * w = a.size
  · simp only [hs, ne_eq, not_true_eq_false, if_false] at hb
    cases hb
    simp [SizedArray.flatten]
  · simp [hs] at hb

/-- C14, witness: `flat6` reshaped to 2 × 3 and flattened again. -/
theorem flatten_after_reshape_witness :
    grid23.flatten.ndim = 1 ∧ grid23.flatten.shape 0 = flat6.size ∧
      grid23.flatten.size = flat6.size ∧ grid23.flatten.data = flat6.data ∧
      grid23.flatten.owner = flat6.owner ∧ grid23.flatten.name = flat6.name :=
  flatten_after_reshape flat6 grid23 2 3 rfl

/-- C15, as stated, fails: on the flat array of 2^32 cells reshaped to 2 × 2^31, the
coordinates (1, 0) are in range and the linear position `1 * 2^31 + 0` lies below
`size` and holds an element, but `get(1, 0)` is fatal, because the flat index 2^31
stored into `int idx` becomes `-2^31`. -/
theorem get2_after_reshape_overflows :
    (flatHuge.reshape 2 2147483648).toOption.map
      (fun b => (b.get2 1 0, b.cell (1 * 2147483648 + 0)))
      = some (.error .flatRange, .ok 0) ∧
    (1 : Int) * 2147483648 + 0 < flatHuge.size := by
  refine ⟨rfl, by decide⟩

/-- C15, amended: after a successful `reshape(h, w)`, for all `0 ≤ i < h` and
`0 ≤ j < w` whose linear position `i*w + j` fits in `int` (below 2^31), `get(i, j)`
returns what `get(i*w + j)` returned before the `reshape`; that is an element whenever
the buffer is non-null. -/
theorem get2_after_reshape {T : Type} (a b : SizedArray T) (h w i j : Int)
    (hb : a.reshape h w = .ok b) (hi0 : 0 ≤ i) (hi : i < h) (hj0 : 0 ≤ j) (hj : j < w)
    (hfit : i * w + j < 2147483648) :
    b.get2 i j = a.get (i * w + j) ∧
    (∀ cells, a.data = some cells → b.get2 i j = .ok (cells (i * w + j).toNat)) := by
  obtain ⟨hsz, hnd, h0, h1, hbs, hbd, -⟩ := reshape_fields a b h w hb
  obtain ⟨hk0, hk1⟩ := flat_lt_of_coords h w i j hi0 hi hj0 hj
  have h2 : b.idx2 i j = .ok (i * w + j) :=
    idx2_in_bounds b h w i j hnd h0 h1 (by rw [hbs]; exact hsz) hi0 hi hj0 hj hfit
  have h1d : a.idx (i * w + j) = .ok (i * w + j) := by
    unfold SizedArray.idx
    rw [← hsz]
    simp [not_lt.mpr hk0, not_le.mpr hk1]
  constructor
  · simp [SizedArray.get2, SizedArray.get, h2, h1d, SizedArray.cell, hbd]
  · intro cells hc
    simp [SizedArray.get2, h2, SizedArray.cell, hbd, hc]

/-- C15, witness: elements [1,2,3,4], `reshape(2, 2)`, then `get(1, 0) == 3` and
`get(0, 1) == 2`. -/
theorem get2_after_reshape_witness :
    (flat4.reshape 2 2).toOption.map (fun b => (b.get2 1 0, b.get2 0 1))
      = some (.ok 3, .ok 2) ∧
    ((flat4.reshape 2 2).toOption.map (fun b => b.get2 1 0) = some (flat4.get (1 * 2 + 0))) :=
  ⟨rfl, by
    have h := (get2_after_reshape flat4
      { flat4 with shape := Function.update (Function.update flat4.shape 0 2) 1 2, ndim := 2 }
      2 2 1 0 rfl (by decide) (by decide) (by decide) (by decide) (by decide)).1
    rw [← h]; rfl⟩

/-! ## Scalar arithmetic -/

theorem plus_ok {T : Type} [Add T] (a b : SizedArray T) (x : T) (hb : a.plus x = .ok b) :
    b.owner = a.owner ∧ b.ndim = a.ndim ∧ b.size = a.size ∧ b.shape = a.shape ∧
      b.name = a.name ∧
      ((a.size ≤ 0 ∧ b.data = a.data) ∨
        ∃ cells, a.data = some cells ∧
          b.data = some (fun k : Nat => if (k : Int) < a.size then cells k + x else cells k)) := by
  unfold SizedArray.plus thrust_transform at hb
  by_cases hs : a.size ≤ 0
  · simp only [hs, if_true] at hb
    cases hb
    exact ⟨rfl, rfl, rfl, rfl, rfl, Or.inl ⟨hs, rfl⟩⟩
  · cases hd : a.data with
    | none => simp [hs, hd] at hb
    | some cells =>
      simp only [hs, if_false, hd] at hb
      cases hb
      exact ⟨rfl, rfl, rfl, rfl, rfl, Or.inr ⟨cells, rfl, rfl⟩⟩

theorem times_ok {T : Type} [Mul T] (a b : SizedArray T) (x : T) (hb : a.times x = .ok b) :
    b.owner = a.owner ∧ b.ndim = a.ndim ∧ b.size = a.size ∧ b.shape = a.shape ∧
      b.name = a.name ∧
      ((a.size ≤ 0 ∧ b.data = a.data) ∨
        ∃ cells, a.data = some cells ∧
          b.data = some (fun k : Nat => if (k : Int) < a.size then cells k * x else cells k)) := by
  unfold SizedArray.times thrust_transform at hb
  by_cases hs : a.size ≤ 0
  · simp only [hs, if_true] at hb
    cases hb
    exact ⟨rfl, rfl, rfl, rfl, rfl, Or.inl ⟨hs, rfl⟩⟩
  · cases hd : a.data with
    | none => simp [hs, hd] at hb
    | some cells =>
      simp only [hs, if_false, hd] at hb
      cases hb
      exact ⟨rfl, rfl, rfl, rfl, rfl, Or.inr ⟨cells, rfl, rfl⟩⟩

theorem times_succeeds {T : Type} [Mul T] (a : SizedArray T) (x : T) (cells : Nat → T)
    (hd : a.data = some cells) : ∃ b, a.times x = .ok b := by
  unfold SizedArray.times thrust_transform
  by_cases hs : a.size ≤ 0
  · simp [hs]
  · simp [hs, hd]

theorem plus_succeeds {T : Type} [Add T] (a : SizedArray T) (x : T) (cells : Nat → T)
    (hd : a.data = some cells) : ∃ b, a.plus x = .ok b := by
  unfold SizedArray.plus thrust_transform
  by_cases hs : a.size ≤ 0
  · simp [hs]
  · simp [hs, hd]

theorem eq_of_fields {T : Type} (a b : SizedArray T) (h1 : b.owner = a.owner)
    (h2 : b.data = a.data) (h3 : b.ndim = a.ndim) (h4 : b.size = a.size)
    (h5 : b.shape = a.shape) (h6 : b.name = a.name) : b = a := by
  cases a; cases b
  simp only [SizedArray.mk.injEq]
  simp only at h1 h2 h3 h4 h5 h6
  exact ⟨h1, h2, h3, h4, h5, h6⟩

/-- C16: for an array whose elements add like integers (an additive group: the
integers, or machine integers wrapping modulo 2^w) and every `x`, `plus(x)` followed by
`plus(-x)` does not fail on a non-null buffer and gives back the array it started
from: every element and `size`, `ndim`, `shape` are as before. -/
theorem plus_then_minus {T : Type} [AddGroup T] (a : SizedArray T) (x : T) :
    (∀ cells, a.data = some cells → ∃ b c, a.plus x = .ok b ∧ b.plus (-x) = .ok c) ∧
    (∀ b c, a.plus x = .ok b → b.plus (-x) = .ok c → c = a) := by
  constructor
  · intro cells hd
    obtain ⟨b, hb⟩ := plus_succeeds a x cells hd
    obtain ⟨hbo, hbn, hbs, hbsh, hbnm, hbd⟩ := plus_ok a b x hb
    rcases hbd with ⟨-, hbd⟩ | ⟨cells1, -, hbd⟩
    · obtain ⟨c, hc⟩ := plus_succeeds b (-x) cells (by rw [hbd, hd])
      exact ⟨b, c, hb, hc⟩
    · obtain ⟨c, hc⟩ := plus_succeeds b (-x) _ hbd
      exact ⟨b, c, hb, hc⟩
  · intro b c hb hc
    obtain ⟨hbo, hbn, hbs, hbsh, hbnm, hbd⟩ := plus_ok a b x hb
    obtain ⟨hco, hcn, hcs, hcsh, hcnm, hcd⟩ := plus_ok b c (-x) hc
    refine eq_of_fields a c (by rw [hco, hbo]) ?_ (by rw [hcn, hbn]) (by rw [hcs, hbs])
      (by rw [hcsh, hbsh]) (by rw [hcnm, hbnm])
    rcases hbd with ⟨hs, hbd⟩ | ⟨cells, had, hbd⟩
    · rcases hcd with ⟨-, hcd⟩ | ⟨cells1, hbd1, hcd⟩
      · rw [hcd, hbd]
      · rw [hcd, ← hbd, hbd1]
        congr 1
        funext k
        have hk : ¬ ((k : Int) < b.size) := by rw [hbs]; omega
        simp [hk]
    · rcases hcd with ⟨hs, hcd⟩ | ⟨cells1, hbd1, hcd⟩
      · rw [hcd, hbd, had]
        congr 1
        funext k
        have hk : ¬ ((k : Int) < a.size) := by rw [hbs] at hs; omega
        simp [hk]
      · rw [hbd] at hbd1
        cases hbd1
        rw [hcd, had, hbs]
        congr 1
        funext k
        by_cases hk : (k : Int) < a.size
        · simp [hk]
        · simp [hk]

/-- C16, witness: `plus(5)` then `plus(-5)` on the integer array [1,2,3,4]. -/
theorem plus_then_minus_witness :
    ∃ b c, flat4.plus 5 = .ok b ∧ b.plus (-5) = .ok c ∧ b.get 0 = .ok 6 ∧ c = flat4 :=
  ⟨_, _, rfl, rfl, rfl, (plus_then_minus flat4 5).2 _ _ rfl rfl⟩

/-- C17, as stated, fails: the element type is a template parameter, and on the array
`withNan`, whose second element is absorbing for `*` as a floating-point not-a-number
is, `times(0)` succeeds, makes the first element 0 and leaves the second one as it
was, which is not 0. -/
theorem times_zero_keeps_nan :
    (withNan.times 0).toOption.map (fun b => (b.size, b.cell 0, b.cell 1))
      = some (2, .ok 0, .ok Scalar.nan) ∧
    Scalar.nan ≠ (0 : Scalar) ∧ Scalar.nan * (0 : Scalar) = Scalar.nan := by
  refine ⟨rfl, by decide, rfl⟩

/-- C17, amended: for every element type, `times(x)` does not fail on a non-null
buffer, replaces each of the `size` elements `e` by `e*x` and changes nothing else;
`times(1)` gives back the array unchanged when `e*1 = e` for the elements, and after
`times(0)` every one of the `size` elements `e` with `e*0 = 0` is 0. -/
theorem times_scales {T : Type} [Mul T] [Zero T] [One T] (a : SizedArray T) (x : T) :
    (∀ cells, a.data = some cells → ∃ b, a.times x = .ok b) ∧
    (∀ b, a.times x = .ok b →
      b.owner = a.owner ∧ b.ndim = a.ndim ∧ b.size = a.size ∧ b.shape = a.shape ∧
      b.name = a.name ∧
      ∀ cells, a.data = some cells → ∃ cells1, b.data = some cells1 ∧
        (∀ k : Nat, (k : Int) < a.size → cells1 k = cells k * x) ∧
        (∀ k : Nat, a.size ≤ (k : Int) → cells1 k = cells k)) ∧
    ((∀ e : T, e * 1 = e) → ∀ b, a.times 1 = .ok b → b = a) ∧
    (∀ b cells, a.times 0 = .ok b → a.data = some cells →
      ∀ k : Nat, (k : Int) < a.size → cells k * 0 = 0 → b.cell k = .ok 0) := by
  refine ⟨fun cells hd => times_succeeds a x cells hd, ?_, ?_, ?_⟩
  · intro b hb
    obtain ⟨hbo, hbn, hbs, hbsh, hbnm, hbd⟩ := times_ok a b x hb
    refine ⟨hbo, hbn, hbs, hbsh, hbnm, ?_⟩
    intro cells had
    rcases hbd with ⟨hs, hbd⟩ | ⟨cells0, had0, hbd⟩
    · refine ⟨cells, by rw [hbd, had], ?_, fun k _ => rfl⟩
      intro k hk
      exfalso
      have : (0 : Int) ≤ k := Int.ofNat_nonneg k
      omega
    · rw [had] at had0
      cases had0
      refine ⟨_, hbd, ?_, ?_⟩
      · intro k hk; simp [hk]
      · intro k hk; simp [not_lt.mpr hk]
  · intro hone b hb
    obtain ⟨hbo, hbn, hbs, hbsh, hbnm, hbd⟩ := times_ok a b 1 hb
    refine eq_of_fields a b hbo ?_ hbn hbs hbsh hbnm
    rcases hbd with ⟨-, hbd⟩ | ⟨cells, had, hbd⟩
    · exact hbd
    · rw [hbd, had]
      congr 1
      funext k
      simp [hone]
  · intro b cells hb had k hk hzero
    obtain ⟨-, -, -, -, -, hbd⟩ := times_ok a b 0 hb
    rcases hbd with ⟨hs, -⟩ | ⟨cells0, had0, hbd⟩
    · exfalso
      have : (0 : Int) ≤ k := Int.ofNat_nonneg k
      omega
    · rw [had] at had0
      cases had0
      simp [SizedArray.cell, hbd, hk, hzero]

/-- C17, witness: `times(3)`, `times(1)` and `times(0)` on the integer array [1,2,3,4]. -/
theorem times_scales_witness :
    ∃ b u z, flat4.times 3 = .ok b ∧ flat4.times 1 = .ok u ∧ flat4.times 0 = .ok z ∧
      b.get 1 = .ok 6 ∧ u = flat4 ∧ z.cell ((3 : Nat) : Int) = .ok 0 :=
  ⟨_, _, _, rfl, rfl, rfl, rfl, (times_scales flat4 3).2.2.1 (fun e => mul_one e) _ rfl,
    (times_scales flat4 3).2.2.2 _ _ rfl rfl 3 (by decide) (by decide)⟩

/-! ## transpose: strategy codes and flat arrays -/

/-- C18: on an array with `ndim == 2`, `transpose(strategy)` with a code other than 1 is
the fatal "unknown strategy" error, and with code 1 it does not fail when the array
is a 2D array in the sense that the buffer is non-null and
`shape[0]*shape[1] == size`. -/
theorem transpose_strategy {T : Type} (a : SizedArray T) (out : Nat → T)
    (hnd : a.ndim = 2) :
    (∀ s : Int, s ≠ 1 → a.transpose out s = .error .unknownStrategy) ∧
    (∀ src, a.data = some src → a.shape 0 * a.shape 1 = a.size →
      ∃ b, a.transpose out 1 = .ok b) := by
  constructor
  · intro s hs
    unfold SizedArray.transpose
    simp [hnd, hs]
  · intro src hd hsz
    exact transpose_succeeds a out src hnd hd hsz

/-- C18, witness: the 2 × 3 matrix `grid23` with the codes 0, 2 and 1. -/
theorem transpose_strategy_witness :
    grid23.transpose (fun _ => 0) 0 = .error .unknownStrategy ∧
    grid23.transpose (fun _ => 0) 2 = .error .unknownStrategy ∧
    ∃ b, grid23.transpose (fun _ => 0) 1 = .ok b :=
  ⟨(transpose_strategy grid23 (fun _ => 0) rfl).1 0 (by decide),
   (transpose_strategy grid23 (fun _ => 0) rfl).1 2 (by decide),
   (transpose_strategy grid23 (fun _ => 0) rfl).2 (fun k => (k : Int) + 1) rfl rfl⟩

/-- C19: on an array with `ndim == 1`, `transpose(strategy)` with any strategy code
returns without failing and leaves the array as it was. -/
theorem transpose_flat_noop {T : Type} (a : SizedArray T) (out : Nat → T) (strategy : Int)
    (hnd : a.ndim = 1) : a.transpose out strategy = .ok a := by
  unfold SizedArray.transpose
  simp [hnd]

/-- C19, witness: `flat6` with the unsupported code 7. -/
theorem transpose_flat_noop_witness : flat6.transpose (fun _ => 0) 7 = .ok flat6 :=
  transpose_flat_noop flat6 (fun _ => 0) 7 rfl

/-! ## Safety of the two-coordinate index -/

/-- C20, as stated, fails: on the 2^17 × 2^16 matrix `tall`, `idx(65536, 0)` returns 0
without failing, while `i*shape[1] + j` is 2^32. -/
theorem idx2_wraps :
    tall.idx2 65536 0 = .ok 0 ∧ (65536 : Int) * tall.shape 1 + 0 = 4294967296 ∧
    tall.shape 0 * tall.shape 1 = tall.size := by
  refine ⟨rfl, rfl, rfl⟩

/-- C20, amended: whenever `idx(i, j)` returns `k`, `k` is `i*shape[1] + j` narrowed to
`int` (so `k == i*shape[1] + j` when that value fits in `int`) and `0 ≤ k < size`;
hence `get(i, j)` reads, and `set(i, j, x)` writes, only a position below `size`. -/
theorem idx2_safe {T : Type} (a : SizedArray T) (i j : Int) :
    (∀ k, a.idx2 i j = .ok k →
      k = toCInt (i * a.shape 1 + j) ∧ 0 ≤ k ∧ k < a.size ∧
      (-2147483648 ≤ i * a.shape 1 + j → i * a.shape 1 + j < 2147483648 →
        k = i * a.shape 1 + j)) ∧
    (∀ v, a.get2 i j = .ok v → ∃ k, 0 ≤ k ∧ k < a.size ∧ a.cell k = .ok v) ∧
    (∀ x b, a.set2 i j x = .ok b → ∃ k cells, 0 ≤ k ∧ k < a.size ∧ a.data = some cells ∧
      b.data = some (Function.update cells k.toNat x) ∧
      b.size = a.size ∧ b.ndim = a.ndim ∧ b.shape = a.shape) := by
  have key : ∀ k, a.idx2 i j = .ok k →
      k = toCInt (i * a.shape 1 + j) ∧ 0 ≤ k ∧ k < a.size := by
    intro k hk
    unfold SizedArray.idx2 at hk
    by_cases h1 : a.ndim = 2
    · by_cases h2 : i ≥ a.shape 0
      · simp [h1, h2] at hk
      · by_cases h3 : j ≥ a.shape 1
        · simp [h1, h2, h3] at hk
        · by_cases h4 : toCInt (i * a.shape 1 + j) < 0 ∨ a.size ≤ toCInt (i * a.shape 1 + j)
          · simp [h1, h2, h3, h4] at hk
          · simp only [h1, ne_eq, not_true_eq_false, if_false, h2, h3, h4] at hk
            cases hk
            push_neg at h4
            exact ⟨rfl, h4.1, h4.2⟩
    · simp [h1] at hk
  refine ⟨?_, ?_, ?_⟩
  · intro k hk
    obtain ⟨e, h0, h1⟩ := key k hk
    refine ⟨e, h0, h1, fun hlo hhi => ?_⟩
    rw [e]
    exact toCInt_of_fits _ hlo hhi
  · intro v hv
    unfold SizedArray.get2 at hv
    cases hk : a.idx2 i j with
    | error e => simp [hk] at hv
    | ok k =>
      obtain ⟨-, h0, h1⟩ := key k hk
      simp only [hk] at hv
      exact ⟨k, h0, h1, hv⟩
  · intro x b hb
    unfold SizedArray.set2 at hb
    cases hk : a.idx2 i j with
    | error e => simp [hk] at hb
    | ok k =>
      obtain ⟨-, h0, h1⟩ := key k hk
      simp only [hk] at hb
      unfold SizedArray.setCell at hb
      cases hd : a.data with
      | none => simp [hd] at hb
      | some cells =>
        simp only [hd] at hb
        cases hb
        exact ⟨k, cells, h0, h1, rfl, rfl, rfl, rfl, rfl⟩

/-! ## The shape invariant -/

theorem extentProduct_congr (f g : Nat → Int) (n : Int)
    (h : ∀ i, i < n.toNat → f i = g i) : extentProduct f n = extentProduct g n := by
  unfold extentProduct
  congr 1
  apply List.map_congr_left
  intro i hi
  exact h i (List.mem_range.mp hi)

theorem extentProduct_ne_zero (f : Nat → Int) (n : Int)
    (h : ∀ i, i < n.toNat → f i ≠ 0) : extentProduct f n ≠ 0 := by
  unfold extentProduct
  apply List.prod_ne_zero
  intro hmem
  obtain ⟨i, hi, hz⟩ := List.mem_map.mp hmem
  exact h i (List.mem_range.mp hi) hz

theorem invariant_flat {T : Type} (a : SizedArray T) (hnd : a.ndim = 1)
    (h0 : a.shape 0 = a.size) (hne : a.size ≠ 0) : ShapeInvariant a := by
  unfold ShapeInvariant extentProduct
  rw [hnd]
  constructor
  · simp [List.range_succ, h0]
  · intro i hi
    have hi0 : i = 0 := by
      have : i < 1 := hi
      omega
    rw [hi0, h0]
    exact hne

theorem invariant_grid {T : Type} (a : SizedArray T) (hnd : a.ndim = 2)
    (hp : a.shape 0 * a.shape 1 = a.size) (hne : a.size ≠ 0) : ShapeInvariant a := by
  unfold ShapeInvariant extentProduct
  rw [hnd]
  have h0 : a.shape 0 ≠ 0 := fun h => hne (by rw [← hp, h, zero_mul])
  have h1 : a.shape 1 ≠ 0 := fun h => hne (by rw [← hp, h, mul_zero])
  constructor
  · simp [List.range_succ, hp]
  · intro i hi
    have hi2 : i < 2 := hi
    interval_cases i
    · exact h0
    · exact h1

theorem invariant_size_ne_zero {T : Type} (a : SizedArray T) (h : ShapeInvariant a) :
    a.size ≠ 0 := by
  rw [← h.1]
  exact extentProduct_ne_zero _ _ h.2

theorem fillShape_fold (s slots : Nat → Int) (n : Nat) :
    (∀ i, i < n → (SizedArray.fillShape s (n : Int) slots).1 i = s i) ∧
    (SizedArray.fillShape s (n : Int) slots).2 = ((List.range n).map s).prod := by
  have hF : (fun (st : (Nat → Int) × Int) (i : Nat) =>
        let sh := Function.update st.1 i (s i)
        (sh, st.2 * sh i))
      = fun st i => (Function.update st.1 i (s i), st.2 * s i) := by
    funext st i
    simp
  unfold SizedArray.fillShape
  rw [hF]
  simp only [Int.toNat_ofNat]
  induction n with
  | zero => simp
  | succ n ih =>
    rw [List.range_succ, List.foldl_append, List.map_append, List.prod_append]
    simp only [List.foldl_cons, List.foldl_nil, List.map_cons, List.map_nil,
      List.prod_cons, List.prod_nil, mul_one]
    refine ⟨?_, by rw [ih.2]⟩
    intro i hi
    by_cases hin : i = n
    · subst hin; simp
    · rw [Function.update_noteq hin]
      exact ih.1 i (by omega)

theorem fillShape_spec (s slots : Nat → Int) (ndim : Int) :
    (∀ i, i < ndim.toNat → (SizedArray.fillShape s ndim slots).1 i = s i) ∧
    (SizedArray.fillShape s ndim slots).2 = extentProduct s ndim := by
  have h := fillShape_fold s slots ndim.toNat
  have e : SizedArray.fillShape s ndim slots = SizedArray.fillShape s (ndim.toNat : Int) slots := by
    unfold SizedArray.fillShape
    simp only [Int.toNat_ofNat]
  rw [e]
  exact h

theorem constructND_size {T : Type} (mem : Option (Nat → T)) (slots : Nat → Int)
    (rawptr : Option (Nat → T)) (ndim : Int) (s : Nat → Int) (name : String)
    (from_host : Bool) (a : SizedArray T)
    (h : SizedArray.constructND mem slots rawptr ndim s name from_host = .ok a) :
    a.ndim = ndim ∧ a.size = extentProduct s ndim ∧
      (∀ i, i < ndim.toNat → a.shape i = s i) ∧ ∀ i, i < ndim.toNat → a.shape i ≠ 0 := by
  unfold SizedArray.constructND at h
  dsimp only at h
  split at h
  · cases h
  · obtain ⟨rfl, -, -, -, hext⟩ := checked_ok _ _ h
    exact ⟨rfl, (fillShape_spec s slots ndim).2, (fillShape_spec s slots ndim).1, hext⟩

theorem reachable_invariant {T : Type} (a : SizedArray T) (h : Reachable a) :
    ShapeInvariant a := by
  induction h with
  | construct mem slots size name a h =>
    obtain ⟨rfl, -, -, -, hext⟩ := checked_ok _ _ h
    have h0 := hext 0 (by show 0 < (1 : Int).toNat; simp)
    exact invariant_flat _ rfl (by simp) (by simpa using h0)
  | constructCopy mem slots S deep a hS h ih =>
    unfold SizedArray.constructCopy at h
    dsimp only at h
    split at h
    · cases h
    · obtain ⟨rfl, -, -, -, hext⟩ := checked_ok _ _ h
      refine ⟨?_, hext⟩
      show extentProduct (SizedArray.copyShape S.shape S.ndim slots) S.ndim = S.size
      rw [← ih.1]
      apply extentProduct_congr
      intro i hi
      have h0 : 0 ≤ S.ndim := by
        by_contra hneg
        rw [Int.toNat_of_nonpos (by omega)] at hi
        omega
      have := copyShape_below S.shape slots S.ndim.toNat i hi
      rwa [Int.toNat_of_nonneg h0] at this
  | constructRaw mem slots rawptr size name from_host a h =>
    unfold SizedArray.constructRaw at h
    dsimp only at h
    split at h
    · cases h
    · obtain ⟨rfl, -, -, -, hext⟩ := checked_ok _ _ h
      have h0 := hext 0 (by show 0 < (1 : Int).toNat; simp)
      exact invariant_flat _ rfl (by simp) (by simpa using h0)
  | constructND mem slots rawptr ndim s name from_host a h =>
    obtain ⟨hn, hs, hsh, hext⟩ := constructND_size mem slots rawptr ndim s name from_host a h
    refine ⟨?_, by rw [hn]; exact hext⟩
    rw [hn, hs]
    exact extentProduct_congr _ _ _ hsh
  | reshape a b h w ha hb ih =>
    obtain ⟨hsz, hnd, h0, h1, hbs, -, -⟩ := reshape_fields a b h w hb
    exact invariant_grid b hnd (by rw [h0, h1, hbs]; exact hsz)
      (by rw [hbs]; exact invariant_size_ne_zero a ih)
  | flatten a ha ih =>
    exact invariant_flat _ rfl (by simp [SizedArray.flatten]) (invariant_size_ne_zero a ih)
  | transpose a b out strategy ha hb ih =>
    by_cases hnd : a.ndim = 2
    · unfold SizedArray.transpose at hb
      by_cases hs : strategy = 1
      · cases hd : a.data with
        | none => simp [hnd, hs, hd] at hb
        | some src =>
          rw [← SizedArray.transpose] at hb
          obtain ⟨-, hp, hbn, hbs, hbsh, -, -, -⟩ := transpose_ok a b out src strategy hnd hd hb
          refine invariant_grid b hbn ?_ (by rw [hbs]; exact invariant_size_ne_zero a ih)
          rw [hbsh, hbs]
          simpa using hp
      · simp [hnd, hs] at hb
    · unfold SizedArray.transpose at hb
      simp only [ne_eq, hnd, not_false_eq_true, if_true] at hb
      cases hb
      exact ih

/-- C11: every array produced by a successful constructor and then by successful
`reshape`, `flatten` and `transpose` calls has extents `shape[0..ndim)` whose product
is `size` and none of which is zero; the N-D constructor sets `size` to the product of
the shape it is given. -/
theorem shape_invariant {T : Type} :
    (∀ a : SizedArray T, Reachable a → ShapeInvariant a) ∧
    (∀ (mem : Option (Nat → T)) (slots : Nat → Int) (rawptr : Option (Nat → T)) (ndim : Int)
      (s : Nat → Int) (name : String) (from_host : Bool) (a : SizedArray T),
      SizedArray.constructND mem slots rawptr ndim s name from_host = .ok a →
        a.size = extentProduct s ndim) :=
  ⟨reachable_invariant, fun mem slots rawptr ndim s name from_host a h =>
    (constructND_size mem slots rawptr ndim s name from_host a h).2.1⟩

/-- C11, witness: `SizedArray(6, "A")`, then `reshape(2, 3)`, `transpose(1)` and
`flatten()`. -/
theorem shape_invariant_witness :
    ∃ a b c : SizedArray Int,
      SizedArray.construct (some (fun _ => 0)) (fun _ => 0) 6 "A" = .ok a ∧
      a.reshape 2 3 = .ok b ∧ b.transpose (fun _ => 0) 1 = .ok c ∧
      ShapeInvariant a ∧ ShapeInvariant b ∧ ShapeInvariant c ∧ ShapeInvariant c.flatten := by
  have ha : Reachable _ := Reachable.construct (some (fun _ => (0 : Int))) (fun _ => 0) 6 "A" _ rfl
  have hb : Reachable _ := Reachable.reshape _ _ 2 3 ha rfl
  have hc : Reachable _ := Reachable.transpose _ _ (fun _ => (0 : Int)) 1 hb rfl
  exact ⟨_, _, _, rfl, rfl, rfl, shape_invariant.1 _ ha, shape_invariant.1 _ hb,
    shape_invariant.1 _ hc, shape_invariant.1 _ (Reachable.flatten _ hc)⟩

/-! ## Independence of a deep copy -/

theorem writeBack_frame {T : Type} (r r1 : ArrayAt T) (m m1 : DeviceMem T)
    (res : Except Fatal (SizedArray T)) (p : Nat) (hp : r.data ≠ p)
    (h : r.writeBack m res = .ok (r1, m1)) : r1.data ≠ p ∧ m1 p = m p := by
  unfold ArrayAt.writeBack at h
  cases res with
  | error e => simp at h
  | ok a =>
    simp only [Except.ok.injEq, Prod.mk.injEq] at h
    obtain ⟨rfl, rfl⟩ := h
    exact ⟨hp, Function.update_noteq (Ne.symm hp) _ _⟩

theorem apply_frame {T : Type} [Add T] [Mul T] (r r1 : ArrayAt T) (m m1 : DeviceMem T)
    (op : Mutation T) (p : Nat) (hp : r.data ≠ p) (hop : Mutation.avoids p op)
    (h : r.apply m op = .ok (r1, m1)) : r1.data ≠ p ∧ m1 p = m p := by
  cases op with
  | set i x => exact writeBack_frame r r1 m m1 _ p hp h
  | set2 i j x => exact writeBack_frame r r1 m m1 _ p hp h
  | plus x => exact writeBack_frame r r1 m m1 _ p hp h
  | times x => exact writeBack_frame r r1 m m1 _ p hp h
  | transpose out fresh strategy =>
    have hout : out ≠ p := hop
    unfold ArrayAt.apply at h
    by_cases hnd : r.ndim = 2
    · simp only [ne_eq, hnd, not_true_eq_false, if_false] at h
      cases ht : (r.load m).transpose fresh strategy with
      | error e => simp [ht] at h
      | ok a =>
        simp only [ht] at h
        cases ho : r.owner
        · simp only [ho, Bool.false_eq_true, if_false, Except.ok.injEq, Prod.mk.injEq] at h
          obtain ⟨rfl, rfl⟩ := h
          exact ⟨hp, Function.update_noteq (Ne.symm hp) _ _⟩
        · simp only [ho, if_true, Except.ok.injEq, Prod.mk.injEq] at h
          obtain ⟨rfl, rfl⟩ := h
          refine ⟨hout, ?_⟩
          rw [Function.update_noteq (Ne.symm hout), Function.update_noteq (Ne.symm hp)]
    · simp only [ne_eq, hnd, not_false_eq_true, if_true, Except.ok.injEq, Prod.mk.injEq] at h
      obtain ⟨rfl, rfl⟩ := h
      exact ⟨hp, rfl⟩

theorem applyAll_frame {T : Type} [Add T] [Mul T] (ops : List (Mutation T)) :
    ∀ (r r1 : ArrayAt T) (m m1 : DeviceMem T) (p : Nat), r.data ≠ p →
      (∀ op, op ∈ ops → Mutation.avoids p op) →
      r.applyAll m ops = .ok (r1, m1) → m1 p = m p := by
  induction ops with
  | nil =>
    intro r r1 m m1 p _ _ h
    simp only [ArrayAt.applyAll, Except.ok.injEq, Prod.mk.injEq] at h
    rw [h.2]
  | cons op ops ih =>
    intro r r1 m m1 p hp hops h
    unfold ArrayAt.applyAll at h
    cases hstep : r.apply m op with
    | error e => simp [hstep] at h
    | ok res =>
      obtain ⟨r2, m2⟩ := res
      simp only [hstep] at h
      obtain ⟨hp2, hm2⟩ := apply_frame r r2 m m2 op p hp (hops op (List.mem_cons_self _ _)) hstep
      rw [ih r2 r1 m2 m1 p hp2 (fun o ho => hops o (List.mem_cons_of_mem _ ho)) h, hm2]

theorem copy_deep_frame {T : Type} (S C : ArrayAt T) (m m1 : DeviceMem T) (out : Nat)
    (fresh : Nat → T) (slots : Nat → Int)
    (h : S.copy m out fresh slots true = .ok (C, m1)) :
    C.data = out ∧ ∀ p, p ≠ out → m1 p = m p := by
  unfold ArrayAt.copy at h
  cases hc : SizedArray.constructCopy (some fresh) slots (S.load m) true with
  | error e => simp [hc] at h
  | ok c =>
    simp only [hc, if_true, Except.ok.injEq, Prod.mk.injEq] at h
    obtain ⟨rfl, rfl⟩ := h
    exact ⟨rfl, fun p hp => Function.update_noteq hp _ _⟩

/-- C12: let `C` be the deep copy of `S`, its buffer allocated at an address other than
that of the buffer of `S`.  After any sequence of `set`, `plus`, `times` and `transpose`
calls on `C` (the scratch blocks of `transpose` allocated away from the buffer of `S`
too), the buffer of `S` holds what it held before, so every element of `S` and the
fields `ndim`, `size`, `shape` of `S` read as before. -/
theorem deep_copy_independent {T : Type} [Add T] [Mul T] (S C C2 : ArrayAt T)
    (m m1 m2 : DeviceMem T) (out : Nat) (fresh : Nat → T) (slots : Nat → Int)
    (ops : List (Mutation T))
    (hC : S.copy m out fresh slots true = .ok (C, m1)) (hout : out ≠ S.data)
    (hops : ∀ op, op ∈ ops → Mutation.avoids S.data op)
    (hrun : C.applyAll m1 ops = .ok (C2, m2)) :
    m2 S.data = m S.data ∧ S.load m2 = S.load m := by
  obtain ⟨hCd, hm1⟩ := copy_deep_frame S C m m1 out fresh slots hC
  have hframe : m2 S.data = m1 S.data :=
    applyAll_frame ops C C2 m1 m2 S.data (by rw [hCd]; exact hout) hops hrun
  have hkeep : m2 S.data = m S.data := by
    rw [hframe, hm1 S.data (Ne.symm hout)]
  refine ⟨hkeep, ?_⟩
  unfold ArrayAt.load
  rw [hkeep]

/-- C12, witness: the 2 × 3 matrix at address 1 is deep-copied to address 2 and the
copy goes through `set`, `plus`, `times`, `transpose` and `set`; the calls succeed, the
copy ends with other elements, and the source reads as before. -/
theorem deep_copy_independent_witness :
    (∃ C m1 C2 m2, gridAt1.copy mem1 2 (fun _ => 0) (fun _ => 0) true = .ok (C, m1) ∧
      C.applyAll m1 sampleMutations = .ok (C2, m2) ∧
      (C2.load m2).get 0 = .ok 20 ∧ (gridAt1.load m2).get 0 = .ok 1) ∧
    (∀ C m1 C2 m2, gridAt1.copy mem1 2 (fun _ => 0) (fun _ => 0) true = .ok (C, m1) →
      C.applyAll m1 sampleMutations = .ok (C2, m2) →
      m2 gridAt1.data = mem1 gridAt1.data ∧ gridAt1.load m2 = gridAt1.load mem1) :=
  ⟨⟨_, _, _, _, rfl, rfl, rfl, rfl⟩,
   fun C m1 C2 m2 hC hrun =>
    deep_copy_independent gridAt1 C C2 mem1 m1 m2 2 (fun _ => 0) (fun _ => 0) sampleMutations
      hC (by decide)
      (by
        intro op hop
        simp only [sampleMutations, List.mem_cons, List.mem_singleton, List.not_mem_nil,
          or_false] at hop
        rcases hop with rfl | rfl | rfl | rfl | rfl <;> simp [Mutation.avoids, gridAt1])
      hrun⟩

end VecArray
